import Mathlib

/-!
Shallow embedding of the OmicScope core (Omicscope.py, Nebula.py) and proofs
about its condition resolution, coverage filter, differential selection,
interchange (.omics) codec and cross-study aggregation.

Numeric table cells are modelled as rationals; text cells as `String`.
Lines of the .omics interchange file are modelled at cell granularity: a line
is the list of its tab-separated cells, so a cell list `[a, b]` stands for the
python string `a + "\t" + b + "\n"`.  This is faithful whenever cells contain
no tab or newline characters, which holds for every cell written by
`Omicscope.savefile`.
-/

/-- Model of pandas `drop_duplicates` (and python `dict.fromkeys`-style first
occurrence semantics): keep the first occurrence of each value, in order.
`seen` accumulates the values already emitted. -/
def dedupFirstAux {α : Type} [DecidableEq α] (seen : List α) : List α → List α
  | [] => []
  | a :: as =>
    if a ∈ seen then dedupFirstAux seen as
    else a :: dedupFirstAux (a :: seen) as

/-- Distinct values of a list, first occurrence kept, order of first
appearance preserved. -/
def dedupFirst {α : Type} [DecidableEq α] (l : List α) : List α :=
  dedupFirstAux [] l

deriving instance DecidableEq for Except

/-- Python string comparison `a < b`: lexicographic on unicode code points. -/
def charListLt : List Char → List Char → Bool
  | _, [] => false
  | [], _ :: _ => true
  | c :: cs, d :: ds =>
    if c.toNat < d.toNat then true
    else if d.toNat < c.toNat then false
    else charListLt cs ds

/-- Python string comparison `a <= b`, i.e. not `b < a`; the order `sorted`
uses on strings. -/
def pyLe (a b : String) : Prop :=
  charListLt b.data a.data = false

instance : DecidableRel pyLe :=
  fun a b => inferInstanceAs (Decidable (charListLt b.data a.data = false))

/-! ## ConditionResolver: `Omicscope.define_conditions` -/

/-- Model of `Omicscope.define_conditions`.  Input: the `Condition` column of
`pdata` (one entry per sample, in row order) and the optional user supplied
`ControlGroup`.  Output on success: `(ControlGroup, experimental, Conditions)`.
With no control the distinct conditions are sorted, the first becomes control
and is removed (`list.remove`, first occurrence) from the sorted list to give
the experimental set; with a supplied control, `remove` on the distinct
conditions either succeeds (experimental = the rest, first-appearance order)
or raises, modelled as an error value. -/
def define_conditions (conditionCol : List String) (ControlGroup : Option String) :
    Except String (String × List String × List String) :=
  match ControlGroup with
  | none =>
    match List.insertionSort pyLe (dedupFirst conditionCol) with
    | [] => Except.error "IndexError: list index out of range"
    | c :: rest =>
      Except.ok (c, (c :: rest).erase c, c :: (c :: rest).erase c)
  | some ctrl =>
    if ctrl ∈ dedupFirst conditionCol then
      Except.ok (ctrl, (dedupFirst conditionCol).erase ctrl,
        ctrl :: (dedupFirst conditionCol).erase ctrl)
    else
      Except.error "The user-defined ControlGroup is not present in pdata."

/-! ## ExpressionMatrixBuilder: the coverage filter of `Omicscope.expression` -/

/-- One entity row of the biological expression matrix after technical
replicate collapse, keyed by accession; `vals` is aligned with the list of
per-column condition labels (`pdata.Condition`), `none` being a missing
value. -/
structure Entity where
  accession : String
  vals : List (Option ℚ)
deriving DecidableEq

/-- Per-condition count of non-missing samples of one entity row: the
`expression.notna()`, rename columns to `pdata.Condition`,
`groupby(columns, axis=1).sum()` chain of `Omicscope.expression`,
evaluated at condition `c`. -/
def notnaCount (sampleConds : List String) (vals : List (Option ℚ)) (c : String) : Nat :=
  ((sampleConds.zip vals).filter fun p => p.1 == c && p.2.isSome).length

/-- The row-survival predicate of the coverage filter:
`nanvalues[nanvalues <= 0] = np.nan; nanvalues = nanvalues.dropna()` keeps a
row iff its count is positive in every condition group (the groupby keys are
the distinct condition labels; pandas sorts them, which is irrelevant to the
conjunction). -/
def survives (sampleConds : List String) (vals : List (Option ℚ)) : Bool :=
  (dedupFirst sampleConds).all fun c => decide (0 < notnaCount sampleConds vals c)

/-- The entity filter of `Omicscope.expression`:
`expression = expression[expression.index.isin(nanvalues.index)]`. -/
def expression_filter (sampleConds : List String) (entities : List Entity) : List Entity :=
  entities.filter fun e => survives sampleConds e.vals

/-! ## DifferentialSelector: `Omicscope.deps` -/

/-- One row of `quant_data` restricted to the columns `Omicscope.deps` reads:
`pval` is the value of the chosen p-value column (`self.pvalue`), `neglog10`
the value of the matching `-log10(...)` column. -/
structure QuantRow where
  gene_name : String
  accession : String
  pval : ℚ
  neglog10 : ℚ
  log2fc : ℚ
  totalMean : ℚ
deriving DecidableEq

/-- The projection of `Omicscope.deps`:
`deps[['gene_name', 'Accession', self.pvalue, '-log10(...)', 'log2(fc)']]`. -/
structure DepsRow where
  gene_name : String
  accession : String
  pval : ℚ
  neglog10 : ℚ
  log2fc : ℚ
deriving DecidableEq

/-- The fold-change half of the selection predicate in `Omicscope.deps`:
`(deps['log2(fc)'] <= -FoldChange_cutoff) | (deps['log2(fc)'] >= FoldChange_cutoff)`. -/
def fcCriterion (FoldChange_cutoff log2fc : ℚ) : Bool :=
  decide (log2fc ≤ -FoldChange_cutoff) || decide (FoldChange_cutoff ≤ log2fc)

/-- Column projection used by `Omicscope.deps`. -/
def depsProj (r : QuantRow) : DepsRow :=
  ⟨r.gene_name, r.accession, r.pval, r.neglog10, r.log2fc⟩

/-- Model of `Omicscope.deps`: first filter on the chosen p-value column being
strictly below the cutoff, then on the fold-change criterion, then project. -/
def deps (PValue_cutoff FoldChange_cutoff : ℚ) (quant_data : List QuantRow) : List DepsRow :=
  ((quant_data.filter fun r => decide (r.pval < PValue_cutoff)).filter
    fun r => fcCriterion FoldChange_cutoff r.log2fc).map depsProj

/-! ## OmicsFileCodec: `Omicscope.savefile` and the scanning part of
`nebula.read_omics` -/

/-- One row of the table section of a `.omics` file, at csv-cell granularity:
each field is the textual cell `DataFrame.to_csv` emits for the columns
`gene_name`, `Accession`, chosen p-value, `log2(fc)`, `TotalMean`. -/
structure OmicsRow where
  gene_name : String
  accession : String
  pval : String
  log2fc : String
  totalMean : String
deriving DecidableEq

/-- Cells of one serialized table row, in column order. -/
def rowCells (r : OmicsRow) : List String :=
  [r.gene_name, r.accession, r.pval, r.log2fc, r.totalMean]

/-- The provenance/citation line written by `Omicscope.savefile`, exactly as
the four python string literals concatenate. -/
def omicsCitation : String :=
  "This file is the output performed by OmicScope pipeline and can be used as input" ++
  " for group comparisons having the controlling group used as used according to OmicScope." ++
  "Please, cite: Reis-de-Oliveira G, Martins-de-Souza D. OmicScope: a Comprehensive Python" ++
  "package designed for Shotgun Proteomics"

/-- Model of `Omicscope.savefile` at line/cell granularity.  The written file
is: format line, citation line, `ControlGroup:` line, `Experimental:` line
(tab-joined experimental labels; an empty join still leaves one empty cell
after the tag), `Statistics:` line, `Expression:` line, the `-------`
separator, the table header, then one line per `quant_data` row. -/
def savefile_lines (ctrl : String) (experimental : List String) (pvalue : String)
    (quant_data : List OmicsRow) : List (List String) :=
  [["OmicScope"],
   [omicsCitation],
   ["ControlGroup:", ctrl],
   "Experimental:" :: (if experimental.isEmpty then [""] else experimental),
   ["Statistics:", pvalue],
   ["Expression:"],
   ["-------"],
   ["gene_name", "Accession", pvalue, "log2(fc)", "TotalMean"]] ++
  quant_data.map rowCells

/-- The python test `line == '-------\n'` of `nebula.read_omics`, at cell
granularity: the line consists of the single cell `-------`. -/
def lineEqSep (l : List String) : Bool :=
  decide (l = ["-------"])

/-- The python test `line.startswith(pre)` for a tab-free `pre`: the string of
a cell list starts with `pre` iff its first cell does. -/
def lineStarts (l : List String) (pre : String) : Bool :=
  match l with
  | [] => false
  | c :: _ => pre.data.isPrefixOf c.data

/-- The python expression `line.split('\t')[-1].split('\n')[0]`: the last
tab-separated cell of the line. -/
def lastField (l : List String) : String :=
  l.getLastD ""

/-- Positions (0-based) of the separator lines, accumulated by
`for n, line in enumerate(lines): if line == '-------\n': positions.append(n)`;
`n` is the index of the first remaining line. -/
def sepPositionsFrom : List (List String) → Nat → List Nat
  | [], _ => []
  | l :: ls, n =>
    if lineEqSep l then n :: sepPositionsFrom ls (n + 1)
    else sepPositionsFrom ls (n + 1)

/-- Separator positions of a whole file. -/
def sepPositions (lines : List (List String)) : List Nat :=
  sepPositionsFrom lines 0

/-- The group labels `nebula.read_omics` appends while scanning one file: for
every line starting with `Experimental`, the last tab-separated field. -/
def read_groups : List (List String) → List String
  | [] => []
  | l :: ls =>
    if lineStarts l "Experimental" then lastField l :: read_groups ls
    else read_groups ls

/-- The scan of `self.pvalue` assignments: every line starting with
`Statistics` overwrites the accumulator with its last tab-separated field. -/
def read_pvalue_from (acc : Option String) : List (List String) → Option String
  | [] => acc
  | l :: ls =>
    if lineStarts l "Statistics" then read_pvalue_from (some (lastField l)) ls
    else read_pvalue_from acc ls

/-- The final value of `self.pvalue` after scanning one file (none if the file
has no `Statistics` line and no earlier file set it). -/
def read_pvalue (lines : List (List String)) : Option String :=
  read_pvalue_from none lines

/-- The table section recovered by `nebula.read_omics`: with a single
separator at `p`, `pd.read_csv(header=p+1)` takes line `p+1` as header and
all later lines as data rows; with two or more separators the data rows are
capped at `nrows = positions[1] - 10`; with none, `positions[0]` raises,
modelled as `none`. -/
def read_table (lines : List (List String)) : Option (List (List String)) :=
  match sepPositions lines with
  | [] => none
  | [p] => some (lines.drop (p + 2))
  | p :: q :: _ => some ((lines.drop (p + 2)).take (q - 10))

/-! ## StudyAggregator: `nebula.__init__`, `nebula.importing`, `nebula.remap` -/

/-- The duplicate-label check of `nebula.__init__`:
`if len(self.groups) != len(set(self.groups)): raise Exception(...)`.  The
size of a python set is the number of distinct elements. -/
def nebula_dup_check (groups : List String) : Except String (List String) :=
  if groups.length ≠ (dedupFirst groups).length then
    Except.error ("There are duplicated group labels. Please verify the .omics file to ensure that the Experimental groups" ++
      " have distinct labels.")
  else
    Except.ok groups

/-- Python `str.upper` restricted to the ASCII range (gene symbols); maps
every character through `Char.toUpper`. -/
def upperStr (s : String) : String :=
  String.mk (s.data.map Char.toUpper)

/-- The (key, value) pairs underlying the canonicalization dictionary of
`nebula.remap`: the concatenated `gene_name` columns of all loaded studies,
exact duplicates dropped keeping the first occurrence, keyed by the
upper-cased form. -/
def dicPairs (names : List String) : List (String × String) :=
  (dedupFirst names).map fun n => (upperStr n, n)

/-- A python dict built from a pair list in order: a later pair with the same
key overwrites an earlier one, so lookup returns the value of the last pair
carrying the key. -/
def dictOfPairs (ps : List (String × String)) (k : String) : Option String :=
  ((ps.filter fun p => p.1 == k).getLast?).map Prod.snd

/-- `dic[...]` of `nebula.remap`: lookup in the canonicalization dictionary. -/
def dicGet (names : List String) (g : String) : Option String :=
  dictOfPairs (dicPairs names) g

/-- `dic.get(i, i)` applied to one gene-list entry: note the lookup key is the
entry itself, not its upper-cased form. -/
def remapGene (names : List String) (g : String) : String :=
  (dicGet names g).getD g

/-- One enrichment gene list rewritten through the dictionary. -/
def remapGenes (names : List String) (genes : List String) : List String :=
  genes.map (remapGene names)

/-- One row of a parsed study table as `nebula.importing` reads it: the
`gene_name` and `log2(fc)` columns plus the p-value columns by name. -/
structure NebRow where
  gene_name : String
  log2fc : ℚ
  pcols : List (String × ℚ)
deriving DecidableEq

/-- One output row of `nebula.importing`: projection to
`['gene_name', 'log2(fc)']` tagged with the study label and the rounded
fold-change colour bucket. -/
structure GroupRow where
  gene_name : String
  log2fc : ℚ
  group : String
  color : ℤ
deriving DecidableEq

/-- One loaded study: its label (the last field of its `Experimental:` line),
the p-value kind named by its `Statistics:` line, the statistics column names
present in its table, and its rows. -/
structure OmicsStudy where
  label : String
  kind : String
  pnames : List String
  rows : List NebRow
deriving DecidableEq

/-- Sort key of `sort_values('log2(fc)')`. -/
def fcLe (a b : NebRow) : Prop :=
  a.log2fc ≤ b.log2fc

instance : DecidableRel fcLe :=
  fun a b => inferInstanceAs (Decidable (a.log2fc ≤ b.log2fc))

/-- Model of `nebula.importing`: select rows whose value in the column named
`pvalue` is strictly below the cutoff, sort by fold-change, project to
gene name and fold-change, tag with the study label and the rounded
fold-change.  A missing column is a `KeyError`.  (numpy rounds half to even;
no claim here depends on the half case, so Mathlib `round` is used.) -/
def importing (pvalue : String) (pvalue_cutoff : ℚ) (s : OmicsStudy) :
    Except String (List GroupRow) :=
  if pvalue ∈ s.pnames then
    Except.ok ((List.insertionSort fcLe
        (s.rows.filter fun r =>
          match r.pcols.lookup pvalue with
          | some p => decide (p < pvalue_cutoff)
          | none => false)).map
      fun r => ⟨r.gene_name, r.log2fc, s.label, round r.log2fc⟩)
  else
    Except.error "KeyError"

/-- The value of the `self.pvalue` attribute after the `read_omics` loop over
all files: each file's `Statistics:` line overwrites it in file order. -/
def read_omics_pvalue (studies : List OmicsStudy) : Option String :=
  studies.foldl (fun _ s => some s.kind) none

/-- The python for-loop collecting `self.group_data`: first failure wins. -/
def mapExcept (f : OmicsStudy → Except String (List GroupRow)) :
    List OmicsStudy → Except String (List (List GroupRow))
  | [] => Except.ok []
  | s :: ss =>
    match f s, mapExcept f ss with
    | Except.ok a, Except.ok as => Except.ok (a :: as)
    | Except.error e, _ => Except.error e
    | Except.ok _, Except.error e => Except.error e

/-- The `group_data` computation of `nebula.__init__`: every study is filtered
with the single `self.pvalue` left behind by `read_omics`; no file at all is
the `read_omics` `ValueError`. -/
def nebula_group_data (pvalue_cutoff : ℚ) (studies : List OmicsStudy) :
    Except String (List (List GroupRow)) :=
  match read_omics_pvalue studies with
  | none => Except.error "Nebula cannot import .omics file. Check if the selected folder contains respective files."
  | some pk => mapExcept (fun s => importing pk pvalue_cutoff s) studies

/-! ## Concrete sample data used by scenario conjuncts and witnesses -/

/-- Scenario row of C4: p-value 0.01, log2 fold-change 1.5. -/
def row1 : QuantRow :=
  ⟨"G1", "A1", 1/100, 2, 3/2, 10⟩

/-- Scenario row of C4: p-value 0.01, log2 fold-change 0.5. -/
def row2 : QuantRow :=
  ⟨"G2", "A2", 1/100, 2, 1/2, 10⟩

/-- Row with log2 fold-change exactly 0 and significant p-value. -/
def rowZero : QuantRow :=
  ⟨"G0", "A0", 1/100, 2, 0, 10⟩

/-- Entity with full coverage in condition WT and no values in condition KO
(columns ordered WT, WT, KO, KO). -/
def entWT : Entity :=
  ⟨"P1", [some 1, some 2, none, none]⟩

/-- A concrete serialized table row. -/
def exRow : OmicsRow :=
  ⟨"TP53", "P04637", "0.01", "1.5", "100.0"⟩

/-- Study whose own recorded p-value kind is `pvalue`; its single row is
significant under `pvalue` (value 0) but not under `pAdjusted` (value 2), for
a cutoff of 1. -/
def studyA : OmicsStudy :=
  ⟨"A", "pvalue", ["pvalue", "pAdjusted"],
    [⟨"G1", 1, [("pvalue", 0), ("pAdjusted", 2)]⟩]⟩

/-- Study whose recorded p-value kind is `pAdjusted`, processed after
`studyA`. -/
def studyB : OmicsStudy :=
  ⟨"B", "pAdjusted", ["pvalue", "pAdjusted"], []⟩

/-! ## Helper lemmas -/

theorem mem_dedupFirstAux {α : Type} [DecidableEq α] (seen : List α) (l : List α) (a : α) :
    a ∈ dedupFirstAux seen l ↔ a ∈ l ∧ a ∉ seen := by
  induction l generalizing seen with
  | nil => simp [dedupFirstAux]
  | cons b bs ih =>
    by_cases hb : b ∈ seen
    · simp only [dedupFirstAux, if_pos hb, ih, List.mem_cons]
      constructor
      · rintro ⟨h1, h2⟩
        exact ⟨Or.inr h1, h2⟩
      · rintro ⟨h1 | h1, h2⟩
        · exact absurd (h1 ▸ hb) h2
        · exact ⟨h1, h2⟩
    · simp only [dedupFirstAux, if_neg hb, List.mem_cons, ih]
      constructor
      · rintro (rfl | ⟨h1, h2⟩)
        · exact ⟨Or.inl rfl, hb⟩
        · exact ⟨Or.inr h1, fun hs => h2 (Or.inr hs)⟩
      · rintro ⟨rfl | h1, h2⟩
        · exact Or.inl rfl
        · by_cases hab : a = b
          · exact Or.inl hab
          · exact Or.inr ⟨h1, fun hs => hs.elim hab h2⟩

theorem mem_dedupFirst {α : Type} [DecidableEq α] (l : List α) (a : α) :
    a ∈ dedupFirst l ↔ a ∈ l := by
  simp [dedupFirst, mem_dedupFirstAux]

theorem nodup_dedupFirstAux {α : Type} [DecidableEq α] (seen : List α) (l : List α) :
    (dedupFirstAux seen l).Nodup := by
  induction l generalizing seen with
  | nil => simp [dedupFirstAux]
  | cons b bs ih =>
    by_cases hb : b ∈ seen
    · simpa only [dedupFirstAux, if_pos hb] using ih seen
    · simp only [dedupFirstAux, if_neg hb, List.nodup_cons]
      refine ⟨fun hmem => ?_, ih _⟩
      exact ((mem_dedupFirstAux _ _ _).1 hmem).2 (List.mem_cons_self b seen)

theorem nodup_dedupFirst {α : Type} [DecidableEq α] (l : List α) :
    (dedupFirst l).Nodup :=
  nodup_dedupFirstAux [] l

theorem length_dedupFirstAux_le {α : Type} [DecidableEq α] (l : List α) (seen : List α) :
    (dedupFirstAux seen l).length ≤ l.length := by
  induction l generalizing seen with
  | nil => simp [dedupFirstAux]
  | cons b bs ih =>
    by_cases hb : b ∈ seen
    · simp only [dedupFirstAux, if_pos hb, List.length_cons]
      exact Nat.le_succ_of_le (ih seen)
    · simp only [dedupFirstAux, if_neg hb, List.length_cons]
      exact Nat.succ_le_succ (ih _)

theorem nodup_of_dedupFirstAux_length {α : Type} [DecidableEq α] (l : List α) :
    ∀ seen : List α, (dedupFirstAux seen l).length = l.length →
      l.Nodup ∧ ∀ a ∈ l, a ∉ seen := by
  induction l with
  | nil => intro seen _; simp
  | cons b bs ih =>
    intro seen h
    by_cases hb : b ∈ seen
    · exfalso
      rw [show dedupFirstAux seen (b :: bs) = dedupFirstAux seen bs from by
        simp [dedupFirstAux, hb]] at h
      have := length_dedupFirstAux_le bs seen
      simp only [List.length_cons] at h
      omega
    · rw [show dedupFirstAux seen (b :: bs) = b :: dedupFirstAux (b :: seen) bs from by
        simp [dedupFirstAux, hb]] at h
      simp only [List.length_cons, Nat.succ_inj] at h
      obtain ⟨hnd, hall⟩ := ih (b :: seen) h
      refine ⟨List.nodup_cons.2 ⟨fun hmem => ?_, hnd⟩, fun a ha hs => ?_⟩
      · exact (hall b hmem) (List.mem_cons_self b seen)
      · rcases List.mem_cons.1 ha with rfl | ha'
        · exact hb hs
        · exact (hall a ha') (List.mem_cons.2 (Or.inr hs))

theorem nodup_of_dedupFirst_length {α : Type} [DecidableEq α] (l : List α)
    (h : (dedupFirst l).length = l.length) : l.Nodup :=
  (nodup_of_dedupFirstAux_length l [] h).1

theorem filter_length_pos_iff {α : Type} (p : α → Bool) (l : List α) :
    0 < (l.filter p).length ↔ ∃ a ∈ l, p a := by
  rw [List.length_pos_iff_exists_mem]
  constructor
  · rintro ⟨a, ha⟩
    rcases List.mem_filter.1 ha with ⟨hm, hp⟩
    exact ⟨a, hm, hp⟩
  · rintro ⟨a, ha, hp⟩
    exact ⟨a, List.mem_filter.2 ⟨ha, hp⟩⟩

/-! ## C4: the differential selection predicate and projection -/

/-- C4: a `quant_data` row is selected by `Omicscope.deps` exactly when its
chosen p-value is strictly below the cutoff and its log2 fold-change is at
most the negated fold-change cutoff or at least the cutoff, and the output is
the projection to {gene name, accession, p-value, -log10(p-value), log2fc};
with cutoffs 0.05 and 1.0, a row with p=0.01 and log2fc=1.5 is selected while
a row with p=0.01 and log2fc=0.5 is not. -/
theorem c4_deps_selection :
    (∀ (pcut fccut : ℚ) (quant : List QuantRow) (d : DepsRow),
        d ∈ deps pcut fccut quant ↔
          ∃ r ∈ quant, depsProj r = d ∧ r.pval < pcut ∧
            (r.log2fc ≤ -fccut ∨ fccut ≤ r.log2fc)) ∧
    deps (5/100) 1 [row1, row2] = [depsProj row1] := by
  constructor
  · intro pcut fccut quant d
    simp only [deps, List.mem_map, List.mem_filter, fcCriterion, Bool.or_eq_true,
      decide_eq_true_eq]
    constructor
    · rintro ⟨r, ⟨⟨hr, hp⟩, hfc⟩, hproj⟩
      exact ⟨r, hr, hproj, hp, hfc⟩
    · rintro ⟨r, hr, hproj, hp, hfc⟩
      exact ⟨r, ⟨⟨hr, hp⟩, hfc⟩, hproj⟩
  · norm_num [deps, row1, row2, depsProj, fcCriterion]

/-! ## C6: the default fold-change cutoff -/

/-- C6 counterexample: with the default cutoff 0 the fold-change criterion of
`Omicscope.deps` does NOT hold exactly for non-zero fold-changes: it holds at
0 as well, and a row with log2 fold-change 0 and significant p-value is
selected under the default cutoff. -/
theorem c6_counterexample :
    ¬ (fcCriterion 0 0 = true ↔ (0 : ℚ) ≠ 0) ∧
    deps (5/100) 0 [rowZero] = [depsProj rowZero] := by
  constructor
  · intro h
    have hc : fcCriterion 0 0 = true := by norm_num [fcCriterion]
    exact (h.1 hc) rfl
  · norm_num [deps, rowZero, depsProj, fcCriterion]

/-- C6 amended: with the default fold-change cutoff 0 the criterion
`log2fc <= -0 or log2fc >= 0` of `Omicscope.deps` holds for every row,
including rows with log2 fold-change exactly 0. -/
theorem c6_default_cutoff_selects_all :
    ∀ log2fc : ℚ, fcCriterion 0 log2fc = true := by
  intro x
  simp only [fcCriterion, neg_zero, Bool.or_eq_true, decide_eq_true_eq]
  exact le_total x 0

/-! ## C7: monotonicity of the selection in the cutoffs -/

/-- C7: decreasing the p-value cutoff or increasing the fold-change magnitude
cutoff never increases the number of rows `Omicscope.deps` selects. -/
theorem c7_deps_monotone :
    ∀ (quant : List QuantRow) (pcut pcut' fccut fccut' : ℚ),
      pcut' ≤ pcut → fccut ≤ fccut' →
      (deps pcut' fccut' quant).length ≤ (deps pcut fccut quant).length := by
  intro quant p p' f f' hp hf
  simp only [deps, List.length_map, List.filter_filter]
  refine List.Sublist.length_le (List.monotone_filter_right _ ?_)
  intro r h
  simp only [fcCriterion, Bool.and_eq_true, Bool.or_eq_true, decide_eq_true_eq] at h ⊢
  obtain ⟨hfc, hpv⟩ := h
  refine ⟨?_, lt_of_lt_of_le hpv hp⟩
  rcases hfc with h1 | h1
  · exact Or.inl (h1.trans (neg_le_neg hf))
  · exact Or.inr (hf.trans h1)

/-- C7 witness: the monotonicity instantiated at concrete cutoffs and data. -/
theorem c7_witness :
    (1 : ℚ)/100 ≤ 5/100 ∧ (1 : ℚ) ≤ 2 ∧
    (deps (1/100) 2 [row1]).length ≤ (deps (5/100) 1 [row1]).length :=
  ⟨by norm_num, by norm_num,
    c7_deps_monotone [row1] (5/100) (1/100) 1 2 (by norm_num) (by norm_num)⟩

/-! ## C2: the per-condition coverage filter -/

/-- C2: the coverage filter of `Omicscope.expression` keeps an entity iff
every condition of the sample metadata has at least one non-missing sample
for it (conjunction over conditions); in particular the entity `entWT`, with
full coverage in WT and no value in KO, is dropped. -/
theorem c2_coverage_filter :
    (∀ (sampleConds : List String) (entities : List Entity) (e : Entity),
        e ∈ expression_filter sampleConds entities ↔
          e ∈ entities ∧ ∀ c ∈ sampleConds,
            ∃ p ∈ sampleConds.zip e.vals, p.1 = c ∧ p.2.isSome = true) ∧
    expression_filter ["WT", "WT", "KO", "KO"] [entWT] = [] := by
  constructor
  · intro conds ents e
    simp only [expression_filter, List.mem_filter, survives, List.all_eq_true,
      decide_eq_true_eq, mem_dedupFirst, notnaCount, filter_length_pos_iff,
      Bool.and_eq_true, beq_iff_eq]
  · decide

/-! ## C5: condition resolution with no supplied control -/

/-- C5: with no supplied control, `Omicscope.define_conditions` sorts the
distinct condition labels, takes the first as control and the remainder (in
sorted order) as experimental, and the output assignment is the control
followed by the experimental conditions; concretely, for the condition column
[WT, KO] the control is KO and the experimental set is [WT]. -/
theorem c5_no_control :
    (∀ (col : List String) (c : String) (e cs : List String),
        define_conditions col none = Except.ok (c, e, cs) →
          cs = List.insertionSort pyLe (dedupFirst col) ∧ cs = c :: e ∧
          cs.Perm (dedupFirst col)) ∧
    define_conditions ["WT", "KO"] none = Except.ok ("KO", ["WT"], ["KO", "WT"]) := by
  constructor
  · intro col c e cs h
    cases hs : List.insertionSort pyLe (dedupFirst col) with
    | nil =>
      simp only [define_conditions, hs] at h
      exact Except.noConfusion h
    | cons c' rest =>
      simp only [define_conditions, hs, List.erase_cons_head, Except.ok.injEq,
        Prod.mk.injEq] at h
      obtain ⟨rfl, rfl, rfl⟩ := h
      exact ⟨rfl, rfl, hs ▸ List.perm_insertionSort pyLe (dedupFirst col)⟩
  · decide

/-- C5 witness: the general statement instantiated at the concrete scenario. -/
theorem c5_witness :
    (["KO", "WT"] : List String) = List.insertionSort pyLe (dedupFirst ["WT", "KO"]) ∧
    (["KO", "WT"] : List String) = "KO" :: ["WT"] ∧
    (["KO", "WT"] : List String).Perm (dedupFirst ["WT", "KO"]) :=
  c5_no_control.1 ["WT", "KO"] "KO" ["WT"] ["KO", "WT"] c5_no_control.2

/-! ## C9: condition resolution with a supplied control -/

/-- C9: with a supplied control absent from the distinct condition labels,
`Omicscope.define_conditions` fails (the ValueError the spec maps to
ConfigurationError); when present, the experimental set is all other distinct
conditions in first-appearance order. -/
theorem c9_supplied_control :
    (∀ (col : List String) (ctrl : String), ctrl ∉ dedupFirst col →
        define_conditions col (some ctrl) =
          Except.error "The user-defined ControlGroup is not present in pdata.") ∧
    (∀ (col : List String) (ctrl : String), ctrl ∈ dedupFirst col →
        define_conditions col (some ctrl) =
          Except.ok (ctrl, (dedupFirst col).filter (fun c => c != ctrl),
            ctrl :: (dedupFirst col).filter (fun c => c != ctrl))) := by
  constructor
  · intro col ctrl h
    simp only [define_conditions, if_neg h]
  · intro col ctrl h
    simp only [define_conditions, if_pos h]
    rw [List.Nodup.erase_eq_filter (nodup_dedupFirst col)]

/-- C9 witness: both branches at concrete inputs. -/
theorem c9_witness :
    define_conditions ["WT", "KO"] (some "XX") =
      Except.error "The user-defined ControlGroup is not present in pdata." ∧
    define_conditions ["WT", "KO"] (some "WT") =
      Except.ok ("WT", (dedupFirst ["WT", "KO"]).filter (fun c => c != "WT"),
        "WT" :: (dedupFirst ["WT", "KO"]).filter (fun c => c != "WT")) :=
  ⟨c9_supplied_control.1 ["WT", "KO"] "XX" (by decide),
   c9_supplied_control.2 ["WT", "KO"] "WT" (by decide)⟩

/-! ## C8: duplicate study labels -/

/-- C8: `nebula.__init__` fails on two studies carrying the same group label
(the exception the spec maps to IdentityConflictError), and in every
successful run the accepted group labels are pairwise distinct. -/
theorem c8_duplicate_labels :
    nebula_dup_check ["KO", "KO"] =
      Except.error ("There are duplicated group labels. Please verify the .omics file to ensure that the Experimental groups" ++
        " have distinct labels.") ∧
    ∀ (groups out : List String), nebula_dup_check groups = Except.ok out →
      out = groups ∧ groups.Nodup := by
  constructor
  · decide
  · intro groups out h
    simp only [nebula_dup_check] at h
    by_cases hlen : groups.length ≠ (dedupFirst groups).length
    · rw [if_pos hlen] at h
      cases h
    · rw [if_neg hlen] at h
      cases h
      push_neg at hlen
      exact ⟨rfl, nodup_of_dedupFirst_length groups hlen.symm⟩

/-- C8 witness: a successful run with the distinct label list [WT]. -/
theorem c8_witness :
    nebula_dup_check ["WT"] = Except.ok ["WT"] ∧ (["WT"] : List String).Nodup := by
  have h : nebula_dup_check ["WT"] = Except.ok ["WT"] := by decide
  exact ⟨h, (c8_duplicate_labels.2 ["WT"] ["WT"] h).2⟩

/-! ## C3: the canonicalization dictionary of `nebula.remap` -/

/-- C3 counterexample: with studies contributing the names [Tp53, TP53] (in
that concatenation order), the dictionary maps key TP53 to the LAST-seen form
TP53, not the first-encountered Tp53; and the two gene-list entries Tp53 and
TP53 are NOT rewritten to a common canonical form. -/
theorem c3_counterexample :
    dicGet ["Tp53", "TP53"] "TP53" ≠ some "Tp53" ∧
    remapGene ["Tp53", "TP53"] "Tp53" ≠ remapGene ["Tp53", "TP53"] "TP53" := by
  constructor
  · decide
  · decide

/-- C3 amended: the dictionary maps an upper-cased key to the LAST-encountered
original-case form among the (exact-duplicate-free) concatenated names;
gene-list entries that are not dictionary keys pass through unchanged; the
names Tp53 and TP53 resolve to one common form exactly in encounter orders
whose last case-variant is the mixed one, e.g. [TP53, Tp53] sends both to
Tp53. -/
theorem c3_last_encountered :
    (∀ (names : List String) (k : String),
        dicGet names k = ((dedupFirst names).filter fun n => upperStr n == k).getLast?) ∧
    (∀ (names : List String) (g : String), (∀ n ∈ names, upperStr n ≠ g) →
        remapGene names g = g) ∧
    (remapGene ["TP53", "Tp53"] "TP53" = "Tp53" ∧
     remapGene ["TP53", "Tp53"] "Tp53" = "Tp53" ∧
     remapGenes ["Tp53", "TP53"] ["Tp53", "TP53"] = ["Tp53", "TP53"]) := by
  refine ⟨?_, ?_, by decide, by decide, by decide⟩
  · intro names k
    rw [dicGet, dictOfPairs, dicPairs, List.filter_map, List.getLast?_map,
      Option.map_map]
    have hcomp :
        ((fun p : String × String => p.1 == k) ∘ fun n => (upperStr n, n)) =
          fun n => upperStr n == k := rfl
    have hsnd : (Prod.snd ∘ fun n : String => (upperStr n, n)) = id := rfl
    rw [hcomp, hsnd, Option.map_id]
    rfl
  · intro names g h
    have hnil : ((dicPairs names).filter fun p => p.1 == g) = [] := by
      rw [dicPairs, List.filter_map, List.filter_eq_nil_iff.2, List.map_nil]
      intro n hn
      simpa using h n ((mem_dedupFirst names n).1 hn)
    rw [remapGene, dicGet, dictOfPairs, hnil]
    rfl

/-- C3 witness: the pass-through clause at a name absent from the
dictionary. -/
theorem c3_witness :
    (∀ n ∈ ["Tp53"], upperStr n ≠ "ABC1") ∧ remapGene ["Tp53"] "ABC1" = "ABC1" :=
  ⟨by decide, c3_last_encountered.2.1 ["Tp53"] "ABC1" (by decide)⟩

/-! ## C1: the .omics round trip -/

theorem lineStarts_cons (a : String) (l : List String) (pre : String) :
    lineStarts (a :: l) pre = pre.data.isPrefixOf a.data :=
  rfl

theorem lineEqSep_rowCells (r : OmicsRow) : lineEqSep (rowCells r) = false := by
  simp [lineEqSep, rowCells]

theorem sepPositionsFrom_rows (rows : List OmicsRow) (n : Nat) :
    sepPositionsFrom (rows.map rowCells) n = [] := by
  induction rows generalizing n with
  | nil => rfl
  | cons r rs ih =>
    simp only [List.map_cons, sepPositionsFrom, lineEqSep_rowCells r,
      Bool.false_eq_true, if_false]
    exact ih (n + 1)

theorem sepPositions_savefile (ctrl : String) (experimental : List String) (pk : String)
    (rows : List OmicsRow) :
    sepPositions (savefile_lines ctrl experimental pk rows) = [6] := by
  simp only [savefile_lines, sepPositions, List.cons_append, List.nil_append]
  simp [sepPositionsFrom, lineEqSep, sepPositionsFrom_rows, omicsCitation]

theorem read_groups_rows (rows : List OmicsRow)
    (h : ∀ r ∈ rows, lineStarts (rowCells r) "Experimental" = false) :
    read_groups (rows.map rowCells) = [] := by
  induction rows with
  | nil => rfl
  | cons r rs ih =>
    simp only [List.map_cons, read_groups, h r (List.mem_cons_self r rs),
      Bool.false_eq_true, if_false]
    exact ih fun x hx => h x (List.mem_cons_of_mem r hx)

theorem read_pvalue_from_rows (acc : Option String) (rows : List OmicsRow)
    (h : ∀ r ∈ rows, lineStarts (rowCells r) "Statistics" = false) :
    read_pvalue_from acc (rows.map rowCells) = acc := by
  induction rows generalizing acc with
  | nil => rfl
  | cons r rs ih =>
    simp only [List.map_cons, read_pvalue_from, h r (List.mem_cons_self r rs),
      Bool.false_eq_true, if_false]
    exact ih acc fun x hx => h x (List.mem_cons_of_mem r hx)

theorem read_table_savefile (ctrl : String) (experimental : List String) (pk : String)
    (rows : List OmicsRow) :
    read_table (savefile_lines ctrl experimental pk rows) = some (rows.map rowCells) := by
  simp only [read_table, sepPositions_savefile]
  rfl

theorem read_groups_savefile (ctrl : String) (experimental : List String) (pk : String)
    (rows : List OmicsRow)
    (h : ∀ r ∈ rows, lineStarts (rowCells r) "Experimental" = false) :
    read_groups (savefile_lines ctrl experimental pk rows) =
      [lastField ("Experimental:" ::
        (if experimental.isEmpty then [""] else experimental))] := by
  have h1 : ("Experimental".data.isPrefixOf "OmicScope".data) = false := by decide
  have h2 : ("Experimental".data.isPrefixOf omicsCitation.data) = false := by decide
  have h3 : ("Experimental".data.isPrefixOf "ControlGroup:".data) = false := by decide
  have h4 : ("Experimental".data.isPrefixOf "Experimental:".data) = true := by decide
  have h5 : ("Experimental".data.isPrefixOf "Statistics:".data) = false := by decide
  have h6 : ("Experimental".data.isPrefixOf "Expression:".data) = false := by decide
  have h7 : ("Experimental".data.isPrefixOf "-------".data) = false := by decide
  have h8 : ("Experimental".data.isPrefixOf "gene_name".data) = false := by decide
  simp only [savefile_lines, List.cons_append, List.nil_append, read_groups,
    lineStarts_cons, h1, h2, h3, h4, h5, h6, h7, h8, Bool.false_eq_true, if_false,
    if_true]
  rw [show ([] : List (List String)).append (List.map rowCells rows) =
        List.map rowCells rows from rfl,
    read_groups_rows rows h]

theorem read_pvalue_savefile (ctrl : String) (experimental : List String) (pk : String)
    (rows : List OmicsRow)
    (h : ∀ r ∈ rows, lineStarts (rowCells r) "Statistics" = false) :
    read_pvalue (savefile_lines ctrl experimental pk rows) = some pk := by
  have h1 : ("Statistics".data.isPrefixOf "OmicScope".data) = false := by decide
  have h2 : ("Statistics".data.isPrefixOf omicsCitation.data) = false := by decide
  have h3 : ("Statistics".data.isPrefixOf "ControlGroup:".data) = false := by decide
  have h4 : ("Statistics".data.isPrefixOf "Experimental:".data) = false := by decide
  have h5 : ("Statistics".data.isPrefixOf "Statistics:".data) = true := by decide
  have h6 : ("Statistics".data.isPrefixOf "Expression:".data) = false := by decide
  have h7 : ("Statistics".data.isPrefixOf "-------".data) = false := by decide
  have h8 : ("Statistics".data.isPrefixOf "gene_name".data) = false := by decide
  simp only [savefile_lines, List.cons_append, List.nil_append, read_pvalue,
    read_pvalue_from, lineStarts_cons, h1, h2, h3, h4, h5, h6, h7, h8,
    Bool.false_eq_true, if_false, if_true]
  rw [show ([] : List (List String)).append (List.map rowCells rows) =
        List.map rowCells rows from rfl,
    read_pvalue_from_rows _ rows h]
  rfl

/-- C1 counterexample: serializing a result whose experimental groups are
[A, B] and control is CTRL, then parsing it back with the `read_omics` scan,
does NOT recover the experimental group labels: only the last label survives
(and no recovered field carries the control group at all). -/
theorem c1_counterexample :
    ¬ read_groups (savefile_lines "CTRL" ["A", "B"] "pvalue" [exRow]) = ["A", "B"] := by
  decide

/-- C1 amended: for a serialized StatisticsResult whose table rows do not
themselves begin with the tags Experimental or Statistics, parsing the
produced .omics lines recovers the table rows exactly and in order, recovers
the p-value-kind string, but of the experimental labels recovers only the
last one; the ControlGroup line is written but no parsing step reads it
back. -/
theorem c1_roundtrip :
    ∀ (ctrl : String) (experimental : List String) (pk : String) (rows : List OmicsRow),
      (∀ r ∈ rows, lineStarts (rowCells r) "Experimental" = false ∧
          lineStarts (rowCells r) "Statistics" = false) →
      experimental ≠ [] →
      read_table (savefile_lines ctrl experimental pk rows) = some (rows.map rowCells) ∧
      read_pvalue (savefile_lines ctrl experimental pk rows) = some pk ∧
      read_groups (savefile_lines ctrl experimental pk rows) = [experimental.getLastD ""] := by
  intro ctrl experimental pk rows hrow hne
  refine ⟨read_table_savefile ctrl experimental pk rows,
    read_pvalue_savefile ctrl experimental pk rows (fun r hr => (hrow r hr).2), ?_⟩
  rw [read_groups_savefile ctrl experimental pk rows (fun r hr => (hrow r hr).1)]
  cases experimental with
  | nil => exact absurd rfl hne
  | cons x xs =>
    simp only [List.isEmpty_cons, Bool.false_eq_true, if_false, lastField,
      List.getLastD_cons]

/-- C1 witness: the round trip at a concrete one-row result. -/
theorem c1_witness :
    ((∀ r ∈ [exRow], lineStarts (rowCells r) "Experimental" = false ∧
        lineStarts (rowCells r) "Statistics" = false) ∧ (["A", "B"] : List String) ≠ []) ∧
    read_table (savefile_lines "CTRL" ["A", "B"] "pvalue" [exRow]) =
      some ([exRow].map rowCells) ∧
    read_pvalue (savefile_lines "CTRL" ["A", "B"] "pvalue" [exRow]) = some "pvalue" ∧
    read_groups (savefile_lines "CTRL" ["A", "B"] "pvalue" [exRow]) =
      [(["A", "B"] : List String).getLastD ""] :=
  ⟨⟨by decide, by decide⟩,
    c1_roundtrip "CTRL" ["A", "B"] "pvalue" [exRow] (by decide) (by decide)⟩

/-! ## C10: which p-value kind the aggregation uses -/

theorem read_omics_pvalue_ne_nil (studies : List OmicsStudy) (init : Option String)
    (h : studies ≠ []) :
    studies.foldl (fun _ s => some s.kind) init =
      (studies.map fun s => s.kind).getLast? := by
  induction studies generalizing init with
  | nil => exact absurd rfl h
  | cons s ss ih =>
    rw [List.foldl_cons]
    cases ss with
    | nil => simp
    | cons t ts =>
      rw [ih (some s.kind) (by simp)]
      simp [List.getLast?_cons_cons]

theorem getLast?_map_const (studies : List OmicsStudy) (k : String)
    (hne : studies ≠ []) (hall : ∀ s ∈ studies, s.kind = k) :
    (studies.map fun s => s.kind).getLast? = some k := by
  induction studies with
  | nil => exact absurd rfl hne
  | cons s ss ih =>
    cases ss with
    | nil => simp [hall s (List.mem_cons_self s [])]
    | cons t ts =>
      rw [List.map_cons, List.map_cons, List.getLast?_cons_cons, ← List.map_cons]
      exact ih (by simp) fun x hx => hall x (List.mem_cons_of_mem s hx)

theorem mapExcept_congr (f g : OmicsStudy → Except String (List GroupRow))
    (l : List OmicsStudy) (h : ∀ s ∈ l, f s = g s) :
    mapExcept f l = mapExcept g l := by
  induction l with
  | nil => rfl
  | cons s ss ih =>
    simp only [mapExcept, h s (List.mem_cons_self s ss),
      ih fun x hx => h x (List.mem_cons_of_mem s hx)]

/-- C10: the `group_data` loop of `nebula.__init__` filters every study with
the p-value kind read from the LAST file processed (the final overwrite of
`self.pvalue` in `read_omics`); when all files carry the same kind this
coincides with filtering each study by its own recorded kind; and at the
concrete pair (`studyA` with kind pvalue, then `studyB` with kind pAdjusted)
the two disagree: `studyA` loses its significant row. -/
theorem c10_last_kind :
    (∀ (studies : List OmicsStudy) (cutoff : ℚ) (k : String),
        (studies.map fun s => s.kind).getLast? = some k →
        nebula_group_data cutoff studies =
          mapExcept (fun s => importing k cutoff s) studies) ∧
    (∀ (studies : List OmicsStudy) (cutoff : ℚ) (k : String), studies ≠ [] →
        (∀ s ∈ studies, s.kind = k) →
        nebula_group_data cutoff studies =
          mapExcept (fun s => importing s.kind cutoff s) studies) ∧
    nebula_group_data 1 [studyA, studyB] ≠
      mapExcept (fun s => importing s.kind 1 s) [studyA, studyB] := by
  have main : ∀ (studies : List OmicsStudy) (cutoff : ℚ) (k : String),
      (studies.map fun s => s.kind).getLast? = some k →
      nebula_group_data cutoff studies =
        mapExcept (fun s => importing k cutoff s) studies := by
    intro studies cutoff k hk
    have hne : studies ≠ [] := by
      rintro rfl
      simp at hk
    have hpv : read_omics_pvalue studies = some k := by
      rw [read_omics_pvalue, read_omics_pvalue_ne_nil studies none hne, hk]
    simp only [nebula_group_data, hpv]
  refine ⟨main, ?_, ?_⟩
  · intro studies cutoff k hne hall
    rw [main studies cutoff k (getLast?_map_const studies k hne hall)]
    exact mapExcept_congr _ _ studies fun s hs => by rw [hall s hs]
  · have hA : nebula_group_data 1 [studyA, studyB] = Except.ok [[], []] := rfl
    have hB : mapExcept (fun s => importing s.kind 1 s) [studyA, studyB] =
        Except.ok [[⟨"G1", 1, "A", round (1 : ℚ)⟩], []] := rfl
    rw [hA, hB]
    simp

/-- C10 witness: the last-kind clause instantiated at the concrete pair of
studies. -/
theorem c10_witness :
    (([studyA, studyB].map fun s => s.kind).getLast? = some "pAdjusted") ∧
    nebula_group_data 1 [studyA, studyB] =
      mapExcept (fun s => importing "pAdjusted" 1 s) [studyA, studyB] :=
  ⟨by simp [studyA, studyB],
    c10_last_kind.1 [studyA, studyB] 1 "pAdjusted" (by simp [studyA, studyB])⟩
